import Mathlib

/-!
Shallow embedding of the Universal Machine interpreter from
`src/src/um.rs` (with the host I/O of `src/src/main.rs`).

Modelling decisions, in correspondence with the Rust source:

* `Plate` (Rust `u32`) is `Nat`; every arithmetic operation that wraps in
  Rust carries an explicit `% 2^32`.
* Register indices are `Fin 8`: the decoder only ever produces values
  `< 8` (it masks with `& 0b111`), so the `u8` of the source is exactly a
  three-bit quantity at every use site.
* The heap `arrays: FxHashMap<Plate, Rc<[Plate]>>` is a pair of an
  association list `slots : List (Plate × Nat)` mapping array ids to
  buffer pointers, and a store `buffers : List (List Plate)` indexed by
  those pointers.  An `Rc` clone is a shared pointer; the strong count of
  a buffer is the number of slots that point to it (no other `Rc` handle
  outlives a single instruction in the source).  `Rc::get_mut` succeeding
  is the refcount being 1; the `None` arm of `ArrStore` (clone `to_vec`,
  mutate, repoint) appends a fresh buffer.
* Rust panics (index out of bounds, `unwrap` on a missing id, division by
  zero, the `unreachable!()` for opcodes 14 and 15, and the host's
  `read_exact(..).unwrap()` at end of input) are `none`.
* The `io: &mut dyn IOInterface` capability is modelled by an `input`
  byte list (the `UMIO` buffer backed by stdin) and an `output` byte
  list; `request_input` pops the next byte or panics when the stream is
  exhausted, `request_output` appends one byte.
-/

abbrev Plate := Nat

abbrev RegId := Fin 8

/-- `struct Registers { regs: [Plate; 8] }`. -/
structure Registers where
  regs : List Plate
deriving DecidableEq

/-- `impl Index<RegId> for Registers` (`self.regs[index as usize]`). -/
def Registers.get (r : Registers) (i : RegId) : Plate :=
  r.regs.getD i.val 0

/-- `impl IndexMut<RegId> for Registers`. -/
def Registers.set (r : Registers) (i : RegId) (v : Plate) : Registers :=
  ⟨r.regs.set i.val v⟩

/-- Lookup in the id → buffer-pointer association list (`FxHashMap` get). -/
def slotsFind : List (Plate × Nat) → Plate → Option Nat
  | [], _ => none
  | e :: t, k => if e.1 = k then some e.2 else slotsFind t k

/-- `FxHashMap::insert`: replace the binding for `k`, or add it. -/
def slotsInsert : List (Plate × Nat) → Plate → Nat → List (Plate × Nat)
  | [], k, v => [(k, v)]
  | e :: t, k, v => if e.1 = k then (k, v) :: t else e :: slotsInsert t k v

/-- `FxHashMap::remove`: drop the binding for `k` when present. -/
def slotsRemove : List (Plate × Nat) → Plate → List (Plate × Nat)
  | [], _ => []
  | e :: t, k => if e.1 = k then t else e :: slotsRemove t k

/-- Number of slots whose pointer is `p`: the `Rc` strong count of the
buffer at `p`. -/
def refcountAux : List (Plate × Nat) → Nat → Nat
  | [], _ => 0
  | e :: t, p => (if e.2 = p then 1 else 0) + refcountAux t p

/-- The heap `arrays: FxHashMap<Plate, Rc<[Plate]>>`: slots hold `Rc`
pointers into the buffer store. -/
structure Heap where
  slots : List (Plate × Nat)
  buffers : List (List Plate)
deriving DecidableEq

/-- Observable contents of array `id`: follow the slot's pointer into the
buffer store. -/
def Heap.contents (h : Heap) (id : Plate) : Option (List Plate) :=
  (slotsFind h.slots id).bind fun p => h.buffers[p]?

/-- The `Command::ArrStore` body: `arrays.get_mut(&arr).unwrap()`, then
`Rc::get_mut`: mutate in place when the strong count is 1, otherwise
`to_vec`, mutate the copy and repoint the slot at a fresh buffer.  An
out-of-bounds offset is an index panic in either arm. -/
def Heap.store (h : Heap) (id : Plate) (off : Nat) (v : Plate) : Option Heap :=
  match slotsFind h.slots id with
  | none => none
  | some p =>
    match h.buffers[p]? with
    | none => none
    | some buf =>
      if refcountAux h.slots p = 1 then
        if off < buf.length then
          some { h with buffers := h.buffers.set p (buf.set off v) }
        else none
      else
        if off < buf.length then
          some { slots := slotsInsert h.slots id h.buffers.length,
                 buffers := h.buffers ++ [buf.set off v] }
        else none

/-- `Command::Alloc` heap effect: `arrays.insert(next_id, vec![0; size])`. -/
def Heap.alloc (h : Heap) (id : Plate) (size : Nat) : Heap :=
  { slots := slotsInsert h.slots id h.buffers.length,
    buffers := h.buffers ++ [List.replicate size 0] }

/-- `Command::Free` heap effect: `arrays.remove(&arr)` (no check at all). -/
def Heap.free (h : Heap) (id : Plate) : Heap :=
  { h with slots := slotsRemove h.slots id }

/-- The `Command` enum of the source. -/
inductive Command where
  | CondMove (dst src cnd : RegId)
  | ArrLoad (dst arr offset : RegId)
  | ArrStore (src arr offset : RegId)
  | Add (dst op1 op2 : RegId)
  | Mul (dst op1 op2 : RegId)
  | Div (dst op1 op2 : RegId)
  | NotAnd (dst op1 op2 : RegId)
  | Halt
  | Alloc (dst size : RegId)
  | Free (arr : RegId)
  | Output (src : RegId)
  | Input (dst : RegId)
  | LoadProg (arr offset : RegId)
  | StoreConst (dst : RegId) (val : Plate)
deriving DecidableEq

/-- The `match &command { Command::LoadProg {..} => .., _ => .. }` test of
the dispatch loop, as a Boolean. -/
def Command.isLoadProg : Command → Bool
  | .LoadProg _ _ => true
  | _ => false

/-- `decode_registers_standard`: `c = p & 7`, `b = (p >> 3) & 7`,
`a = (p >> 6) & 7`. -/
def Command.decode_registers_standard (p : Plate) : RegId × RegId × RegId :=
  (⟨p / 64 % 8, by omega⟩, ⟨p / 8 % 8, by omega⟩, ⟨p % 8, by omega⟩)

/-- `decode_special`: `a = (p >> 25) & 7`, `v = p & 0x1FFFFFF`. -/
def Command.decode_special (p : Plate) : RegId × Plate :=
  (⟨p / 33554432 % 8, by omega⟩, p % 33554432)

/-- `decode_command_id`: `(p >> 28) & 0xF`. -/
def Command.decode_command_id (p : Plate) : Nat :=
  p / 268435456 % 16

/-- `Command::decode`.  The source ends in `unreachable!()` for opcodes 14
and 15 (a panic), modelled as `none`. -/
def Command.decode (p : Plate) : Option Command :=
  match Command.decode_registers_standard p, Command.decode_special p,
        Command.decode_command_id p with
  | (a, b, c), (sa, sv), id =>
    match id with
    | 0 => some (.CondMove a b c)
    | 1 => some (.ArrLoad a b c)
    | 2 => some (.ArrStore c a b)
    | 3 => some (.Add a b c)
    | 4 => some (.Mul a b c)
    | 5 => some (.Div a b c)
    | 6 => some (.NotAnd a b c)
    | 7 => some .Halt
    | 8 => some (.Alloc b c)
    | 9 => some (.Free c)
    | 10 => some (.Output c)
    | 11 => some (.Input c)
    | 12 => some (.LoadProg b c)
    | 13 => some (.StoreConst sa sv)
    | _ => none

/-- `struct UniversalMachine`, with the `io` capability replaced by the
remaining host input bytes and the emitted output bytes. -/
structure UniversalMachine where
  registers : Registers
  ip : Nat
  next_array_id : Plate
  arrays : Heap
  is_halted : Bool
  input : List Nat
  output : List Nat
deriving DecidableEq

/-- `UniversalMachine::perform_command`.  `none` is a panic of the source
(unknown id, out-of-bounds offset, division by zero, or the host input
`unwrap` at end of stream). -/
def UniversalMachine.perform_command (s : UniversalMachine) (c : Command) :
    Option UniversalMachine :=
  match c with
  | .CondMove dst src cnd =>
    if s.registers.get cnd ≠ 0 then
      some { s with registers := s.registers.set dst (s.registers.get src) }
    else some s
  | .ArrLoad dst arr offset =>
    match s.arrays.contents (s.registers.get arr) with
    | none => none
    | some buf =>
      match buf[s.registers.get offset]? with
      | none => none
      | some v => some { s with registers := s.registers.set dst v }
  | .ArrStore src arr offset =>
    (s.arrays.store (s.registers.get arr) (s.registers.get offset)
        (s.registers.get src)).map
      fun h => { s with arrays := h }
  | .Add dst op1 op2 =>
    let a := s.registers.get op1
    let b := s.registers.get op2
    some { s with registers := s.registers.set dst ((a + b) % 4294967296) }
  | .Mul dst op1 op2 =>
    let a := s.registers.get op1
    let b := s.registers.get op2
    some { s with registers := s.registers.set dst (a * b % 4294967296) }
  | .Div dst op1 op2 =>
    let a := s.registers.get op1
    let b := s.registers.get op2
    if b = 0 then none
    else some { s with registers := s.registers.set dst (a / b) }
  | .NotAnd dst op1 op2 =>
    let a := s.registers.get op1
    let b := s.registers.get op2
    some { s with registers := s.registers.set dst (Nat.xor (Nat.land a b) 4294967295) }
  | .Halt => some { s with is_halted := true }
  | .Alloc dst size =>
    let next_id := s.next_array_id
    some { s with next_array_id := (next_id + 1) % 4294967296,
                  arrays := s.arrays.alloc next_id (s.registers.get size),
                  registers := s.registers.set dst next_id }
  | .Free arr =>
    some { s with arrays := s.arrays.free (s.registers.get arr) }
  | .Output src =>
    some { s with output := s.output ++ [s.registers.get src % 256] }
  | .Input dst =>
    match s.input with
    | [] => none
    | b :: rest =>
      some { s with registers := s.registers.set dst (b % 256), input := rest }
  | .LoadProg arr offset =>
    match slotsFind s.arrays.slots (s.registers.get arr) with
    | none => none
    | some p =>
      some { s with
        arrays := { slots := slotsInsert s.arrays.slots 0 p,
                    buffers := s.arrays.buffers },
        ip := s.registers.get offset }
  | .StoreConst dst val =>
    some { s with registers := s.registers.set dst val }

/-- One iteration of the `run` loop body: fetch `arrays[&0][ip]`, decode,
execute, and post-increment `ip` unless the command was `LoadProg`. -/
def UniversalMachine.step (s : UniversalMachine) : Option UniversalMachine :=
  match s.arrays.contents 0 with
  | none => none
  | some prog =>
    match prog[s.ip]? with
    | none => none
    | some p =>
      match Command.decode p with
      | none => none
      | some c =>
        (s.perform_command c).map fun s' =>
          match c with
          | .LoadProg _ _ => s'
          | _ => { s' with ip := s'.ip + 1 }

/-- The `while !self.is_halted && step < max_steps` loop, with the
remaining step budget as fuel. -/
def UniversalMachine.run_loop (s : UniversalMachine) : Nat → Option UniversalMachine
  | 0 => some s
  | n + 1 =>
    if s.is_halted then some s
    else (s.step).bind fun t => t.run_loop n

/-- `UniversalMachine::run(max_steps)`:
`max_steps.unwrap_or(u32::max_value())`. -/
def UniversalMachine.run (s : UniversalMachine) (max_steps : Option Nat) :
    Option UniversalMachine :=
  s.run_loop (max_steps.getD 4294967295)

/-- `plate_from_bytes`: `try_into` a 4-byte array, then `from_be_bytes`.
The `% 256` records that the source bytes have type `u8`. -/
def UniversalMachine.plate_from_bytes (bytes : List Nat) : Option Plate :=
  match bytes with
  | [a, b, c, d] =>
    some (a % 256 * 16777216 + b % 256 * 65536 + c % 256 * 256 + d % 256)
  | _ => none

/-- `program.chunks(4)`: full 4-byte groups, a shorter trailing group when
the length is not a multiple of 4. -/
def UniversalMachine.chunks4 : List Nat → List (List Nat)
  | [] => []
  | a :: b :: c :: d :: rest => [a, b, c, d] :: UniversalMachine.chunks4 rest
  | l => [l]

/-- `.collect::<Option<Vec<Plate>>>()`: short-circuit on the first chunk
that is not 4 bytes. -/
def UniversalMachine.collectPlates : List (List Nat) → Option (List Plate)
  | [] => some []
  | chunk :: rest =>
    match UniversalMachine.plate_from_bytes chunk with
    | none => none
    | some w =>
      match UniversalMachine.collectPlates rest with
      | none => none
      | some ws => some (w :: ws)

/-- `UniversalMachine::new`: decode the scroll into the program array and
build the initial state. -/
def UniversalMachine.new (program : List Nat) (input : List Nat) :
    Option UniversalMachine :=
  match UniversalMachine.collectPlates (UniversalMachine.chunks4 program) with
  | none => none
  | some program_array =>
    some { registers := ⟨List.replicate 8 0⟩,
           ip := 0,
           next_array_id := 1,
           arrays := { slots := [(0, 0)], buffers := [program_array] },
           is_halted := false,
           input := input,
           output := [] }

/-! Concrete machine states used to instantiate the claims.  All of them
have the shape produced by `UniversalMachine.new` (eight registers, a
live array 0) with registers and heap filled in directly. -/

/-- Registers `[0xFFFFFFFF, 1, 0, …]`, for the `Add` wraparound boundary. -/
def umC7add : UniversalMachine :=
  { registers := ⟨[4294967295, 1, 0, 0, 0, 0, 0, 0]⟩,
    ip := 0, next_array_id := 1,
    arrays := { slots := [(0, 0)], buffers := [[]] },
    is_halted := false, input := [], output := [] }

/-- Registers `[0x80000000, 2, 0, …]`, for the `Mul` wraparound boundary. -/
def umC7mul : UniversalMachine :=
  { registers := ⟨[2147483648, 2, 0, 0, 0, 0, 0, 0]⟩,
    ip := 0, next_array_id := 1,
    arrays := { slots := [(0, 0)], buffers := [[]] },
    is_halted := false, input := [], output := [] }

/-- `R[0] = 256`: an `Output` operand above the byte range. -/
def umC2out : UniversalMachine :=
  { registers := ⟨[256, 0, 0, 0, 0, 0, 0, 0]⟩,
    ip := 0, next_array_id := 1,
    arrays := { slots := [(0, 0)], buffers := [[]] },
    is_halted := false, input := [], output := [] }

/-- `R[0] = 0` and `R[1] = 7` (an id not in the heap): the two
`Abandonment` operands the claim calls faults. -/
def umC5free : UniversalMachine :=
  { registers := ⟨[0, 7, 0, 0, 0, 0, 0, 0]⟩,
    ip := 0, next_array_id := 1,
    arrays := { slots := [(0, 0)], buffers := [[5]] },
    is_halted := false, input := [], output := [] }

/-- Registers all zero, `R[2] = 0` in particular: a divisor of zero. -/
def umC6div : UniversalMachine :=
  { registers := ⟨[9, 3, 0, 0, 0, 0, 0, 0]⟩,
    ip := 0, next_array_id := 1,
    arrays := { slots := [(0, 0)], buffers := [[]] },
    is_halted := false, input := [], output := [] }

/-- Program `[0xB0000000]` (`Input` into `R[0]`) with the host input
stream already exhausted. -/
def umC1eos : UniversalMachine :=
  { registers := ⟨[0, 0, 0, 0, 0, 0, 0, 0]⟩,
    ip := 0, next_array_id := 1,
    arrays := { slots := [(0, 0)], buffers := [[2952790016]] },
    is_halted := false, input := [], output := [] }

/-- The same program with one byte (`65`) still available. -/
def umC1byte : UniversalMachine :=
  { registers := ⟨[0, 0, 0, 0, 0, 0, 0, 0]⟩,
    ip := 0, next_array_id := 1,
    arrays := { slots := [(0, 0)], buffers := [[2952790016]] },
    is_halted := false, input := [65], output := [] }

/-! Helper lemmas about registers and the slot association list. -/

theorem Registers.get_set_self (r : Registers) (i : RegId) (v : Plate)
    (h : r.regs.length = 8) : (r.set i v).get i = v := by
  simp only [Registers.get, Registers.set, List.getD_eq_getElem?_getD]
  rw [List.getElem?_set_self (by rw [h]; exact i.isLt)]
  rfl

theorem Registers.get_set_ne (r : Registers) (i j : RegId) (v : Plate)
    (hj : j ≠ i) : (r.set i v).get j = r.get j := by
  simp only [Registers.get, Registers.set, List.getD_eq_getElem?_getD]
  rw [List.getElem?_set_ne (Fin.val_injective.ne (Ne.symm hj))]

theorem slotsFind_eq_none_of_not_mem (l : List (Plate × Nat)) (k : Plate)
    (h : k ∉ l.map Prod.fst) : slotsFind l k = none := by
  induction l with
  | nil => rfl
  | cons e t ih =>
    simp only [List.map_cons, List.mem_cons, not_or] at h
    have he : ¬ e.1 = k := fun hh => h.1 hh.symm
    simp only [slotsFind, if_neg he]
    exact ih h.2

theorem slotsFind_slotsRemove_self (l : List (Plate × Nat)) (k : Plate)
    (hnd : (l.map Prod.fst).Nodup) : slotsFind (slotsRemove l k) k = none := by
  induction l with
  | nil => rfl
  | cons e t ih =>
    simp only [List.map_cons, List.nodup_cons] at hnd
    by_cases he : e.1 = k
    · simp only [slotsRemove, if_pos he]
      exact slotsFind_eq_none_of_not_mem t k (by rw [← he]; exact hnd.1)
    · simp only [slotsRemove, if_neg he, slotsFind]
      exact ih hnd.2

theorem slotsFind_slotsRemove_ne (l : List (Plate × Nat)) (k j : Plate)
    (hj : j ≠ k) : slotsFind (slotsRemove l k) j = slotsFind l j := by
  induction l with
  | nil => rfl
  | cons e t ih =>
    by_cases he : e.1 = k
    · have hej : ¬ e.1 = j := fun hh => hj ((he.symm.trans hh).symm)
      simp only [slotsRemove, if_pos he, slotsFind, if_neg hej]
    · simp only [slotsRemove, if_neg he, slotsFind]
      by_cases hej : e.1 = j
      · simp [hej]
      · simp only [if_neg hej]
        exact ih

theorem slotsFind_slotsInsert_self (l : List (Plate × Nat)) (k : Plate) (v : Nat) :
    slotsFind (slotsInsert l k v) k = some v := by
  induction l with
  | nil => simp [slotsInsert, slotsFind]
  | cons e t ih =>
    by_cases he : e.1 = k
    · simp [slotsInsert, if_pos he, slotsFind]
    · simp only [slotsInsert, if_neg he, slotsFind, if_neg he]
      exact ih

theorem slotsFind_slotsInsert_ne (l : List (Plate × Nat)) (k j : Plate) (v : Nat)
    (hj : j ≠ k) : slotsFind (slotsInsert l k v) j = slotsFind l j := by
  have hkj : ¬ k = j := fun hh => hj hh.symm
  induction l with
  | nil => simp only [slotsInsert, slotsFind, if_neg hkj]
  | cons e t ih =>
    by_cases he : e.1 = k
    · have hej : ¬ e.1 = j := fun hh => hj ((he.symm.trans hh).symm)
      simp only [slotsInsert, if_pos he, slotsFind, if_neg hkj, if_neg hej]
    · simp only [slotsInsert, if_neg he, slotsFind]
      by_cases hej : e.1 = j
      · simp [hej]
      · simp only [if_neg hej]
        exact ih

example : UniversalMachine.new [7 * 16, 0, 0, 0] [] ≠ none := by decide

example :
    (UniversalMachine.new [112, 0, 0, 0] []).bind (fun m => m.run (some 3)) =
      (UniversalMachine.new [112, 0, 0, 0] []).bind
        (fun m => some { m with is_halted := true, ip := 1 }) := by decide

/-! Claim theorems. -/

/-- C7: for all register values, `Add` stores `(R[B] + R[C]) mod 2^32`
and `Mul` stores `(R[B] * R[C]) mod 2^32` into `R[A]`; in particular
`0xFFFFFFFF + 1` wraps to `0` and `0x80000000 * 2` wraps to `0`. -/
theorem um_add_mul_wrap (s : UniversalMachine) (dst op1 op2 : RegId)
    (hreg : s.registers.regs.length = 8) :
    ((s.perform_command (.Add dst op1 op2)).map fun t => t.registers.get dst) =
      some ((s.registers.get op1 + s.registers.get op2) % 2 ^ 32) ∧
    ((s.perform_command (.Mul dst op1 op2)).map fun t => t.registers.get dst) =
      some (s.registers.get op1 * s.registers.get op2 % 2 ^ 32) ∧
    ((umC7add.perform_command (.Add 0 0 1)).map fun t => t.registers.get 0) = some 0 ∧
    ((umC7mul.perform_command (.Mul 0 0 1)).map fun t => t.registers.get 0) = some 0 := by
  refine ⟨?_, ?_, by decide, by decide⟩
  · simp only [UniversalMachine.perform_command, Option.map_some']
    rw [Registers.get_set_self _ _ _ hreg]
    norm_num
  · simp only [UniversalMachine.perform_command, Option.map_some']
    rw [Registers.get_set_self _ _ _ hreg]
    norm_num

/-- C7 witness: the general statement applied to the concrete machine
`umC7add` with destination register 2. -/
theorem um_add_mul_wrap_witness :
    ((umC7add.perform_command (.Add 2 0 1)).map fun t => t.registers.get 2) =
      some ((umC7add.registers.get 0 + umC7add.registers.get 1) % 2 ^ 32) :=
  (um_add_mul_wrap umC7add 2 0 1 (by decide)).1

/-- C6: `Div` with a zero divisor is a panic of the interpreter (`none`:
no successor state exists, so in particular no state with the halted flag
set); with a nonzero divisor it stores the floor of the unsigned quotient
in `R[A]` and leaves every other register — and the rest of the state —
unchanged. -/
theorem um_div_spec (s : UniversalMachine) (dst op1 op2 : RegId)
    (hreg : s.registers.regs.length = 8) :
    (s.registers.get op2 = 0 → s.perform_command (.Div dst op1 op2) = none) ∧
    (s.registers.get op2 ≠ 0 →
      (s.perform_command (.Div dst op1 op2)).isSome = true) ∧
    (∀ t, s.perform_command (.Div dst op1 op2) = some t →
      s.registers.get op2 ≠ 0 ∧
      t.registers.get dst = s.registers.get op1 / s.registers.get op2 ∧
      (∀ j : RegId, j ≠ dst → t.registers.get j = s.registers.get j) ∧
      t.is_halted = s.is_halted ∧ t.ip = s.ip ∧ t.arrays = s.arrays ∧
      t.input = s.input ∧ t.output = s.output) := by
  refine ⟨fun h0 => ?_, fun h0 => ?_, fun t ht => ?_⟩
  · simp only [UniversalMachine.perform_command, if_pos h0]
  · simp only [UniversalMachine.perform_command, if_neg h0, Option.isSome_some]
  · by_cases h0 : s.registers.get op2 = 0
    · simp only [UniversalMachine.perform_command, if_pos h0] at ht
      exact absurd ht (by simp)
    · simp only [UniversalMachine.perform_command, if_neg h0, Option.some_inj] at ht
      subst ht
      refine ⟨h0, Registers.get_set_self _ _ _ hreg, fun j hj => ?_, rfl, rfl, rfl, rfl, rfl⟩
      exact Registers.get_set_ne _ _ _ _ hj

/-- C6 witness: division of 9 by 3 in concrete registers, and the
divide-by-zero panic, both obtained from the general statement. -/
theorem um_div_spec_witness :
    umC6div.registers.get 2 = 0 ∧
    umC6div.perform_command (.Div 0 0 2) = none ∧
    (∀ t, umC6div.perform_command (.Div 2 0 1) = some t →
      t.registers.get 2 = umC6div.registers.get 0 / umC6div.registers.get 1) :=
  ⟨by decide, (um_div_spec umC6div 0 0 2 (by decide)).1 (by decide),
   fun t ht => ((um_div_spec umC6div 2 0 1 (by decide)).2.2 t ht).2.1⟩

/-- C2 counterexample: with `R[0] = 256 > 255`, `Output` does not fault —
`perform_command` succeeds (the source calls `request_output(src as u8)`
with no range check) and emits the truncated byte `0`. -/
theorem um_output_no_range_check :
    umC2out.registers.get 0 = 256 ∧
    umC2out.perform_command (.Output 0) = some { umC2out with output := [0] } := by
  decide

/-- C2 amended: `Output` never faults; it always emits exactly the low 8
bits of `R[C]` (`R[C] mod 256`), with no range verification; for
`R[C] ≤ 255` that value is `R[C]` itself. -/
theorem um_output_emits_low_byte (s : UniversalMachine) (src : RegId) :
    s.perform_command (.Output src) =
      some { s with output := s.output ++ [s.registers.get src % 256] } := rfl

/-- C5 counterexample: `Abandonment` of id 0 and of an id absent from the
heap both succeed (the source runs `arrays.remove(&arr)` with no check),
where the claim requires a fault. -/
theorem um_free_no_fault :
    umC5free.registers.get 0 = 0 ∧
    (umC5free.perform_command (.Free 0)).isSome = true ∧
    umC5free.registers.get 1 = 7 ∧
    slotsFind umC5free.arrays.slots 7 = none ∧
    (umC5free.perform_command (.Free 1)).isSome = true := by
  decide

/-- C5 amended: `Abandonment` never faults: it removes the binding for
`R[C]` when present — including id 0 — and is a no-op for an unknown id;
afterwards array `R[C]` is absent and every other array, the registers,
and `ip` are unchanged. -/
theorem um_free_spec (s : UniversalMachine) (arr : RegId)
    (hnd : (s.arrays.slots.map Prod.fst).Nodup) :
    ∀ t, s.perform_command (.Free arr) = some t →
      t.arrays.contents (s.registers.get arr) = none ∧
      (∀ j, j ≠ s.registers.get arr → t.arrays.contents j = s.arrays.contents j) ∧
      t.registers = s.registers ∧ t.ip = s.ip ∧ t.is_halted = s.is_halted := by
  intro t ht
  simp only [UniversalMachine.perform_command, Option.some_inj] at ht
  subst ht
  refine ⟨?_, fun j hj => ?_, rfl, rfl, rfl⟩
  · simp only [Heap.contents, Heap.free]
    rw [slotsFind_slotsRemove_self _ _ hnd]
    rfl
  · simp only [Heap.contents, Heap.free]
    rw [slotsFind_slotsRemove_ne _ _ _ hj]

/-- `umC5free` after `Free` of array 0 (`R[0] = 0`). -/
def umC5freed : UniversalMachine :=
  { umC5free with arrays := { slots := [], buffers := [[5]] } }

/-- C5 witness: the amended statement applied to the concrete machine
`umC5free` freeing array 0: precisely that binding disappears. -/
theorem um_free_spec_witness :
    umC5freed.arrays.contents 0 = none ∧
    umC5freed.arrays.contents 7 = umC5free.arrays.contents 7 ∧
    umC5freed.registers = umC5free.registers := by
  have h := um_free_spec umC5free 0 (by decide) umC5freed (by decide)
  exact ⟨h.1, h.2.1 7 (by decide), h.2.2.1⟩

/-- C1: the claim is right and the code is wrong.  The host interface
`request_input` returns a `u8`, so the register written by `Input` is
always a value below 256 and can never be the sentinel `0xFFFFFFFF`;
at end-of-stream the shipped host (`UMIO::request_input`) panics on
`read_exact(..).unwrap()`, modelled as `none`.  Concretely: the machine
`umC1eos` (program `[0xB0000000]`, exhausted input) panics instead of
writing the sentinel, and with a byte `65` available the register
receives `65 ≠ 0xFFFFFFFF`. -/
theorem um_input_no_sentinel :
    umC1eos.input = [] ∧
    umC1eos.step = none ∧
    ((umC1byte.perform_command (.Input 0)).map fun t => t.registers.get 0) = some 65 ∧
    (65 : Nat) ≠ 4294967295 := by
  decide

/-! C4: instruction-pointer advancement. -/

/-- No command other than `LoadProg` writes `ip` in `perform_command`. -/
theorem perform_command_ip (s t : UniversalMachine) (c : Command)
    (hc : c.isLoadProg = false)
    (ht : s.perform_command c = some t) : t.ip = s.ip := by
  cases c <;>
    first
      | exact Bool.noConfusion hc
      | (simp only [UniversalMachine.perform_command] at ht
         first
           | (rw [Option.some_inj] at ht; subst ht; rfl)
           | (rw [Option.map_eq_some'] at ht; obtain ⟨h, -, rfl⟩ := ht; rfl)
           | (split at ht <;>
               first
                 | exact Option.noConfusion ht
                 | (rw [Option.some_inj] at ht; subst ht; rfl)
                 | (split at ht <;>
                     first
                       | exact Option.noConfusion ht
                       | (rw [Option.some_inj] at ht; subst ht; rfl))))

/-- C4: in a successful fetch-decode-execute cycle, `ip` is incremented by
exactly 1 when the decoded command is not `LoadProg`, and a `LoadProg`
sets `ip` to `R[C]` (the offset register) with no post-increment. -/
theorem um_ip_advance (s t : UniversalMachine) (p : Plate) (c : Command)
    (hfetch : (s.arrays.contents 0).bind (fun prog => prog[s.ip]?) = some p)
    (hdec : Command.decode p = some c)
    (ht : s.step = some t) :
    (c.isLoadProg = false → t.ip = s.ip + 1) ∧
    (∀ arr offset, c = .LoadProg arr offset → t.ip = s.registers.get offset) := by
  obtain ⟨prog, hprog, hp⟩ :
      ∃ prog, s.arrays.contents 0 = some prog ∧ prog[s.ip]? = some p := by
    cases hc : s.arrays.contents 0 with
    | none => rw [hc] at hfetch; exact absurd hfetch (by simp)
    | some prog => rw [hc] at hfetch; exact ⟨prog, rfl, hfetch⟩
  simp only [UniversalMachine.step, hprog, hp, hdec] at ht
  rw [Option.map_eq_some'] at ht
  obtain ⟨s', hs', rfl⟩ := ht
  constructor
  · intro hnl
    cases c <;>
      first
        | exact Bool.noConfusion hnl
        | exact congrArg (fun x => x + 1) (perform_command_ip s s' _ (by rfl) hs')
  · rintro arr offset rfl
    simp only [UniversalMachine.perform_command] at hs'
    cases hf : slotsFind s.arrays.slots (s.registers.get arr) with
    | none => rw [hf] at hs'; exact absurd hs' (by simp)
    | some q =>
      rw [hf] at hs'
      rw [Option.some_inj] at hs'
      subst hs'
      rfl

/-- Program `[Add R0 ← R1 + R2]` on zeroed registers: a non-`LoadProg`
cycle. -/
def umC4add : UniversalMachine :=
  { registers := ⟨[0, 0, 0, 0, 0, 0, 0, 0]⟩,
    ip := 0, next_array_id := 1,
    arrays := { slots := [(0, 0)], buffers := [[805306378]] },
    is_halted := false, input := [], output := [] }

/-- `umC4add` after one step: same state with `ip = 1`. -/
def umC4addStepped : UniversalMachine :=
  { umC4add with registers := ⟨[0, 0, 0, 0, 0, 0, 0, 0]⟩, ip := 1 }

/-- Program `[LoadProg arr = R0, offset = R1]` with `R[0] = 0`,
`R[1] = 2`: an in-place jump. -/
def umC4jump : UniversalMachine :=
  { registers := ⟨[0, 2, 0, 0, 0, 0, 0, 0]⟩,
    ip := 0, next_array_id := 1,
    arrays := { slots := [(0, 0)], buffers := [[3221225473]] },
    is_halted := false, input := [], output := [] }

/-- `umC4jump` after one step: `ip` jumped to 2, nothing incremented. -/
def umC4jumpStepped : UniversalMachine :=
  { umC4jump with ip := 2 }

/-- C4 witness: the general statement applied to one concrete
non-`LoadProg` cycle and one concrete `LoadProg` cycle. -/
theorem um_ip_advance_witness :
    umC4addStepped.ip = umC4add.ip + 1 ∧
    umC4jumpStepped.ip = umC4jump.registers.get 1 := by
  constructor
  · exact (um_ip_advance umC4add umC4addStepped 805306378 (.Add 0 1 2)
      (by decide) (by decide) (by decide)).1 (by decide)
  · exact (um_ip_advance umC4jump umC4jumpStepped 3221225473 (.LoadProg 0 1)
      (by decide) (by decide) (by decide)).2 0 1 rfl

/-! C9 and C10: the dispatch loop's step budget. -/

/-- A halted machine is a fixed point of the loop, at any budget. -/
theorem run_loop_halted (s : UniversalMachine) (h : s.is_halted = true) :
    ∀ n, s.run_loop n = some s := by
  intro n
  cases n with
  | zero => rfl
  | succ n => simp [UniversalMachine.run_loop, h]

/-- C9: running the loop with budget `a` and then with budget `b` is
exactly one run with budget `a + b` (states compared whole: registers,
`ip`, heap, halted flag, and both I/O streams); and a budget-0 return
changes nothing at all. -/
theorem um_run_additive (s : UniversalMachine) (a b : Nat) :
    s.run (some (a + b)) = (s.run (some a)).bind (fun t => t.run (some b)) ∧
    s.run (some 0) = some s := by
  refine ⟨?_, rfl⟩
  show s.run_loop (a + b) = (s.run_loop a).bind fun t => t.run_loop b
  induction a generalizing s with
  | zero =>
    simp only [Nat.zero_add, UniversalMachine.run_loop, Option.some_bind]
  | succ a ih =>
    rw [Nat.succ_add]
    simp only [UniversalMachine.run_loop]
    by_cases h : s.is_halted
    · rw [if_pos h, if_pos h, Option.some_bind]
      exact (run_loop_halted s h b).symm
    · rw [if_neg h, if_neg h]
      cases hs : s.step with
      | none => simp
      | some t => simp only [Option.some_bind, ih t]

/-- The one-platter program `[0xC0000000]`: `LoadProg` from array 0 to
offset `R[0] = 0`, an infinite in-place loop that never halts. -/
def umC10loop : UniversalMachine :=
  { registers := ⟨[0, 0, 0, 0, 0, 0, 0, 0]⟩,
    ip := 0, next_array_id := 1,
    arrays := { slots := [(0, 0)], buffers := [[3221225472]] },
    is_halted := false, input := [], output := [] }

/-- A non-halted machine whose step reproduces itself runs forever
without the loop ever stopping on its own. -/
theorem run_loop_fixpoint (s : UniversalMachine) (hh : s.is_halted = false)
    (hs : s.step = some s) : ∀ n, s.run_loop n = some s := by
  intro n
  induction n with
  | zero => rfl
  | succ n ih => simp [UniversalMachine.run_loop, hh, hs, ih]

/-- C10: `run` with `max_steps = None` is the loop with the finite budget
`u32::MAX = 2^32 - 1` — there is no unbounded run —, and it returns after
exhausting that budget even on a machine that never halts: the in-place
jump loop `umC10loop` comes back un-halted. -/
theorem um_run_none_bound :
    (∀ s : UniversalMachine, s.run none = s.run_loop 4294967295) ∧
    umC10loop.is_halted = false ∧
    umC10loop.step = some umC10loop ∧
    umC10loop.run none = some umC10loop := by
  refine ⟨fun s => rfl, rfl, by decide, ?_⟩
  show umC10loop.run_loop 4294967295 = some umC10loop
  exact run_loop_fixpoint _ rfl (by decide) _

/-! C8: the constructor. -/

/-- Four `getD_cons_succ` steps at once. -/
theorem getD_cons4 (a b c d : Nat) (rest : List Nat) (n : Nat) :
    (a :: b :: c :: d :: rest).getD (n + 4) 0 = rest.getD n 0 := rfl

/-- A byte list whose members are below 256 has all `getD _ 0` reads
below 256. -/
theorem getD_lt_256 (l : List Nat) (hb : ∀ x ∈ l, x < 256) (n : Nat) :
    l.getD n 0 < 256 := by
  rw [List.getD_eq_getElem?_getD]
  cases hn : l[n]? with
  | none => decide
  | some x =>
    simp only [Option.getD_some]
    exact hb x (List.getElem?_mem hn)

/-- On a scroll whose length is a multiple of 4, `chunks(4)` followed by
`collect` succeeds and produces one big-endian word per 4-byte group. -/
theorem collectPlates_chunks4_of_dvd :
    ∀ l : List Nat, l.length % 4 = 0 →
    ∃ pa, UniversalMachine.collectPlates (UniversalMachine.chunks4 l) = some pa ∧
      pa.length = l.length / 4 ∧
      ∀ i, i < l.length / 4 → pa[i]? =
        some (l.getD (4 * i) 0 % 256 * 16777216 + l.getD (4 * i + 1) 0 % 256 * 65536 +
          l.getD (4 * i + 2) 0 % 256 * 256 + l.getD (4 * i + 3) 0 % 256) := by
  intro l
  induction l using UniversalMachine.chunks4.induct with
  | case1 =>
    intro _
    exact ⟨[], rfl, rfl, fun i hi => absurd hi (Nat.not_lt_zero i)⟩
  | case2 a b c d rest ih =>
    intro hlen
    have hlen' : rest.length % 4 = 0 := by
      simp only [List.length_cons] at hlen
      omega
    obtain ⟨pa, hpa, hplen, hpidx⟩ := ih hlen'
    refine ⟨(a % 256 * 16777216 + b % 256 * 65536 + c % 256 * 256 + d % 256) :: pa,
      ?_, ?_, ?_⟩
    · simp [UniversalMachine.chunks4, UniversalMachine.collectPlates,
        UniversalMachine.plate_from_bytes, hpa]
    · simp only [List.length_cons, hplen]
      omega
    · intro i hi
      cases i with
      | zero => simp
      | succ i =>
        rw [List.getElem?_cons_succ]
        have hb : i < rest.length / 4 := by
          simp only [List.length_cons] at hi
          omega
        rw [hpidx i hb]
        have e0 : 4 * (i + 1) = 4 * i + 4 := by ring
        have e1 : 4 * (i + 1) + 1 = 4 * i + 1 + 4 := by ring
        have e2 : 4 * (i + 1) + 2 = 4 * i + 2 + 4 := by ring
        have e3 : 4 * (i + 1) + 3 = 4 * i + 3 + 4 := by ring
        rw [e3, e2, e1, e0, getD_cons4, getD_cons4, getD_cons4, getD_cons4]
  | case3 l h0 h4 =>
    intro hlen
    rcases l with _ | ⟨a, _ | ⟨b, _ | ⟨c, _ | ⟨d, rest⟩⟩⟩⟩
    · exact absurd rfl h0
    · simp at hlen
    · simp at hlen
    · simp at hlen
    · exact absurd rfl (h4 a b c d rest)

/-- On a scroll whose length is not a multiple of 4, the trailing short
chunk makes `collect` fail. -/
theorem collectPlates_chunks4_of_not_dvd :
    ∀ l : List Nat, l.length % 4 ≠ 0 →
    UniversalMachine.collectPlates (UniversalMachine.chunks4 l) = none := by
  intro l
  induction l using UniversalMachine.chunks4.induct with
  | case1 =>
    intro h
    exact absurd rfl h
  | case2 a b c d rest ih =>
    intro hlen
    have hlen' : rest.length % 4 ≠ 0 := by
      simp only [List.length_cons] at hlen
      omega
    simp [UniversalMachine.chunks4, UniversalMachine.collectPlates,
      UniversalMachine.plate_from_bytes, ih hlen']
  | case3 l h0 h4 =>
    intro hlen
    rcases l with _ | ⟨a, _ | ⟨b, _ | ⟨c, _ | ⟨d, rest⟩⟩⟩⟩
    · exact absurd rfl h0
    · rfl
    · rfl
    · rfl
    · exact absurd rfl (h4 a b c d rest)

/-- C8: `UniversalMachine::new` succeeds iff the scroll length is a
multiple of 4; on success, array 0 holds at index `i` the big-endian word
of bytes `4i..4i+3`, all eight registers are 0, `ip` is 0, and the fresh
array id counter starts at 1. -/
theorem um_new_spec (program input : List Nat) (hb : ∀ x ∈ program, x < 256) :
    ((UniversalMachine.new program input).isSome ↔ program.length % 4 = 0) ∧
    ∀ m, UniversalMachine.new program input = some m →
      m.registers = ⟨List.replicate 8 0⟩ ∧ m.ip = 0 ∧ m.next_array_id = 1 ∧
      m.is_halted = false ∧ m.input = input ∧ m.output = [] ∧
      ∃ pa, m.arrays.contents 0 = some pa ∧ pa.length = program.length / 4 ∧
        ∀ i, i < program.length / 4 → pa[i]? =
          some (program.getD (4 * i) 0 * 16777216 + program.getD (4 * i + 1) 0 * 65536 +
            program.getD (4 * i + 2) 0 * 256 + program.getD (4 * i + 3) 0) := by
  constructor
  · constructor
    · intro hs
      by_contra hne
      rw [UniversalMachine.new, collectPlates_chunks4_of_not_dvd program hne] at hs
      exact Bool.noConfusion hs
    · intro hdvd
      obtain ⟨pa, hpa, -, -⟩ := collectPlates_chunks4_of_dvd program hdvd
      rw [UniversalMachine.new, hpa]
      rfl
  · intro m hm
    cases hcp : UniversalMachine.collectPlates (UniversalMachine.chunks4 program) with
    | none =>
      rw [UniversalMachine.new, hcp] at hm
      exact Option.noConfusion hm
    | some pa0 =>
      rw [UniversalMachine.new, hcp, Option.some_inj] at hm
      subst hm
      have hdvd : program.length % 4 = 0 := by
        by_contra hne
        rw [collectPlates_chunks4_of_not_dvd program hne] at hcp
        exact Option.noConfusion hcp
      obtain ⟨pa, hpa, hplen, hpidx⟩ := collectPlates_chunks4_of_dvd program hdvd
      rw [hpa, Option.some_inj] at hcp
      subst hcp
      refine ⟨rfl, rfl, rfl, rfl, rfl, rfl, pa, rfl, hplen, ?_⟩
      intro i hi
      rw [hpidx i hi,
        Nat.mod_eq_of_lt (getD_lt_256 program hb (4 * i)),
        Nat.mod_eq_of_lt (getD_lt_256 program hb (4 * i + 1)),
        Nat.mod_eq_of_lt (getD_lt_256 program hb (4 * i + 2)),
        Nat.mod_eq_of_lt (getD_lt_256 program hb (4 * i + 3))]

/-- The machine `new` builds from the scroll
`[0,0,0,1, 255,255,255,255]`. -/
def umC8m : UniversalMachine :=
  { registers := ⟨List.replicate 8 0⟩,
    ip := 0, next_array_id := 1,
    arrays := { slots := [(0, 0)], buffers := [[1, 4294967295]] },
    is_halted := false, input := [], output := [] }

/-- C8 witness: the general statement applied to an 8-byte scroll. -/
theorem um_new_spec_witness :
    (UniversalMachine.new [0, 0, 0, 1, 255, 255, 255, 255] []).isSome = true ∧
    umC8m.registers = ⟨List.replicate 8 0⟩ ∧ umC8m.next_array_id = 1 := by
  have h := um_new_spec [0, 0, 0, 1, 255, 255, 255, 255] [] (by decide)
  have hm := h.2 umC8m (by decide)
  exact ⟨h.1.mpr (by decide), hm.1, hm.2.2.1⟩

/-! C3: Load Program installs an observable deep copy. -/

/-- A slot that points at `p` contributes to the strong count of `p`. -/
theorem refcount_pos_of_find (l : List (Plate × Nat)) (k : Plate) (p : Nat)
    (h : slotsFind l k = some p) : 1 ≤ refcountAux l p := by
  induction l with
  | nil => exact Option.noConfusion h
  | cons e t ih =>
    simp only [slotsFind] at h
    simp only [refcountAux]
    by_cases he : e.1 = k
    · rw [if_pos he, Option.some_inj] at h
      rw [if_pos h]
      omega
    · rw [if_neg he] at h
      have hge := ih h
      split <;> omega

/-- Two slots with distinct ids pointing at the same buffer give it a
strong count of at least 2 — so `Rc::get_mut` fails on it. -/
theorem refcount_two_of_find_two (l : List (Plate × Nat)) (k1 k2 : Plate) (p : Nat)
    (h1 : slotsFind l k1 = some p) (h2 : slotsFind l k2 = some p)
    (hne : k1 ≠ k2) : 2 ≤ refcountAux l p := by
  induction l with
  | nil => exact Option.noConfusion h1
  | cons e t ih =>
    simp only [slotsFind] at h1 h2
    simp only [refcountAux]
    by_cases he1 : e.1 = k1
    · rw [if_pos he1, Option.some_inj] at h1
      have he2 : ¬ e.1 = k2 := fun hh => hne (he1.symm.trans hh)
      rw [if_neg he2] at h2
      have hge := refcount_pos_of_find t k2 p h2
      rw [if_pos h1]
      omega
    · rw [if_neg he1] at h1
      by_cases he2 : e.1 = k2
      · rw [if_pos he2, Option.some_inj] at h2
        have hge := refcount_pos_of_find t k1 p h1
        rw [if_pos h2]
        omega
      · rw [if_neg he2] at h2
        have hge := ih h1 h2
        split <;> omega

/-- `ArrStore` on an id whose buffer is shared (strong count ≠ 1) takes
the clone-then-mutate arm: a fresh buffer is appended and only this id's
slot is repointed. -/
theorem Heap.store_shared (h : Heap) (id : Plate) (off : Nat) (v : Plate)
    (p : Nat) (buf : List Plate)
    (hf : slotsFind h.slots id = some p)
    (hb : h.buffers[p]? = some buf)
    (hrc : ¬ refcountAux h.slots p = 1) :
    Heap.store h id off v =
      if off < buf.length then
        some { slots := slotsInsert h.slots id h.buffers.length,
               buffers := h.buffers ++ [buf.set off v] }
      else none := by
  simp only [Heap.store, hf, hb, if_neg hrc]

/-- C3: after a `LoadProg` from a live array `k = R[B] ≠ 0` (slot pointer
`p`, contents `L`), array 0 and array `k` both observably hold `L` (the
claimed deep copy of `heap[k]`), and the copy is real: a subsequent
`ArrStore` into array 0 leaves array `k` at `L`, an `ArrStore` into array
`k` leaves array 0 at `L`, and a `Free` of `k` leaves array 0 at `L` —
because the shared buffer's strong count is at least 2, so the
copy-on-write arm of `ArrStore` clones before mutating. -/
theorem um_loadprog_deep_copy (s s' : UniversalMachine) (barr coff : RegId)
    (p : Nat) (L : List Plate)
    (hk0 : s.registers.get barr ≠ 0)
    (hp : slotsFind s.arrays.slots (s.registers.get barr) = some p)
    (hL : s.arrays.buffers[p]? = some L)
    (hs' : s.perform_command (.LoadProg barr coff) = some s') :
    s'.arrays.contents 0 = some L ∧
    s'.arrays.contents (s.registers.get barr) = some L ∧
    s.arrays.contents (s.registers.get barr) = some L ∧
    (∀ (src areg oreg : RegId) (t : UniversalMachine),
      s'.registers.get areg = 0 →
      s'.perform_command (.ArrStore src areg oreg) = some t →
      t.arrays.contents (s.registers.get barr) = some L) ∧
    (∀ (src areg oreg : RegId) (t : UniversalMachine),
      s'.registers.get areg = s.registers.get barr →
      s'.perform_command (.ArrStore src areg oreg) = some t →
      t.arrays.contents 0 = some L) ∧
    (∀ (areg : RegId) (t : UniversalMachine),
      s'.registers.get areg = s.registers.get barr →
      s'.perform_command (.Free areg) = some t →
      t.arrays.contents 0 = some L) := by
  simp only [UniversalMachine.perform_command, hp] at hs'
  rw [Option.some_inj] at hs'
  subst hs'
  have hplen : p < s.arrays.buffers.length := by
    rcases List.getElem?_eq_some_iff.mp hL with ⟨hh, -⟩
    exact hh
  have f0 : slotsFind (slotsInsert s.arrays.slots 0 p) 0 = some p :=
    slotsFind_slotsInsert_self _ _ _
  have fk : slotsFind (slotsInsert s.arrays.slots 0 p) (s.registers.get barr) = some p := by
    rw [slotsFind_slotsInsert_ne _ _ _ _ hk0]
    exact hp
  have hrc : ¬ refcountAux (slotsInsert s.arrays.slots 0 p) p = 1 := by
    have hge := refcount_two_of_find_two _ _ _ _ f0 fk (fun hh => hk0 hh.symm)
    omega
  refine ⟨?_, ?_, ?_, ?_, ?_, ?_⟩
  · simp only [Heap.contents, f0, Option.some_bind]
    exact hL
  · simp only [Heap.contents, fk, Option.some_bind]
    exact hL
  · simp only [Heap.contents, hp, Option.some_bind]
    exact hL
  · intro src areg oreg t hareg ht
    dsimp only at hareg ht
    simp only [UniversalMachine.perform_command] at ht
    rw [hareg,
      Heap.store_shared
        { slots := slotsInsert s.arrays.slots 0 p, buffers := s.arrays.buffers }
        0 (s.registers.get oreg) (s.registers.get src) p L f0 hL hrc] at ht
    split at ht
    · rw [Option.map_some', Option.some_inj] at ht
      subst ht
      simp only [Heap.contents]
      rw [slotsFind_slotsInsert_ne _ _ _ _ hk0, fk, Option.some_bind,
        List.getElem?_append_left hplen]
      exact hL
    · exact Option.noConfusion ht
  · intro src areg oreg t hareg ht
    dsimp only at hareg ht
    simp only [UniversalMachine.perform_command] at ht
    rw [hareg,
      Heap.store_shared
        { slots := slotsInsert s.arrays.slots 0 p, buffers := s.arrays.buffers }
        (s.registers.get barr) (s.registers.get oreg) (s.registers.get src) p L fk hL hrc] at ht
    split at ht
    · rw [Option.map_some', Option.some_inj] at ht
      subst ht
      simp only [Heap.contents]
      rw [slotsFind_slotsInsert_ne _ _ _ _ (fun hh => hk0 hh.symm), f0, Option.some_bind,
        List.getElem?_append_left hplen]
      exact hL
    · exact Option.noConfusion ht
  · intro areg t hareg ht
    dsimp only at hareg ht
    simp only [UniversalMachine.perform_command] at ht
    rw [hareg, Option.some_inj] at ht
    subst ht
    simp only [Heap.contents, Heap.free]
    rw [slotsFind_slotsRemove_ne _ _ _ (fun hh => hk0 hh.symm), f0, Option.some_bind]
    exact hL

/-- Two live arrays: array 0 (buffer `[7]`) and array 5 (buffer `[8,9]`),
with `R[1] = 5` naming the `LoadProg` source. -/
def umC3 : UniversalMachine :=
  { registers := ⟨[0, 5, 0, 0, 0, 0, 0, 0]⟩,
    ip := 0, next_array_id := 6,
    arrays := { slots := [(0, 0), (5, 1)], buffers := [[7], [8, 9]] },
    is_halted := false, input := [], output := [] }

/-- `umC3` after `LoadProg arr=R1 offset=R0`: slot 0 shares array 5's
buffer. -/
def umC3s : UniversalMachine :=
  { umC3 with arrays := { slots := [(0, 1), (5, 1)], buffers := [[7], [8, 9]] } }

/-- `umC3s` after `ArrStore` into array 0 at offset `R[4] = 0` of value
`R[2] = 0`: the shared buffer is cloned, array 5 untouched. -/
def umC3t : UniversalMachine :=
  { umC3 with arrays := { slots := [(0, 2), (5, 1)], buffers := [[7], [8, 9], [0, 9]] } }

/-- `umC3s` after `Free` of array 5 (`R[1] = 5`): array 0 keeps the
copied buffer. -/
def umC3f : UniversalMachine :=
  { umC3 with arrays := { slots := [(0, 1)], buffers := [[7], [8, 9]] } }

/-- C3 witness: the deep-copy statement applied to the concrete machine
`umC3`: after the load, array 0 holds `[8,9]`; after amending array 0,
array 5 still holds `[8,9]`; after freeing array 5, array 0 still holds
`[8,9]`. -/
theorem um_loadprog_deep_copy_witness :
    umC3s.arrays.contents 0 = some [8, 9] ∧
    umC3t.arrays.contents 5 = some [8, 9] ∧
    umC3f.arrays.contents 0 = some [8, 9] := by
  have h := um_loadprog_deep_copy umC3 umC3s 1 0 1 [8, 9]
    (by decide) (by decide) (by decide) (by decide)
  exact ⟨h.1, h.2.2.2.1 2 3 4 umC3t (by decide) (by decide),
    h.2.2.2.2.2 1 umC3f (by decide) (by decide)⟩
